import Mathlib

/-!
Verification of the cryptographic core declared in
`cppForSwig/EncryptionUtils.h`: the `SecureBinaryData` page-locked
zeroizing buffer, the `KdfRomix` ROMix key-derivation function, the
`CryptoAES` CFB codec and the `CryptoECDSA` sign/verify facility.

`SecureBinaryData`'s lifecycle methods are inline in the header and are
embedded over an explicit heap model, so that zeroization of released
storage, page-lock state and aliasing are all observable.  The bodies of
`KdfRomix`, `CryptoAES` and `CryptoECDSA` live outside the header; those
operations are modelled from the specification, as flagged on each
definition.
-/

/-- One storage block of the process heap: its byte contents, whether the
page-lock (`mlock`) flag is set on it, and whether it is still allocated.
A freed block keeps whatever bytes were last written, so zeroization-on-
release claims are observable in the model. -/
structure Block where
  content : List Nat
  locked : Bool
  live : Bool
deriving DecidableEq

/-- The process heap: blocks addressed by allocation order.  `next` is the
first never-used address; allocation always hands out a fresh block, so a
reallocated buffer visibly abandons its old storage. -/
structure Heap where
  blk : Nat → Block
  next : Nat

/-- Replace the block stored at address `i`. -/
def Heap.setBlock (h : Heap) (i : Nat) (b : Block) : Heap :=
  { h with blk := fun j => if j = i then b else h.blk j }

/-- Allocate a fresh live block holding `bytes`; returns the new heap and
the new block's address. -/
def Heap.alloc (h : Heap) (bytes : List Nat) : Heap × Nat :=
  ({ blk := fun j => if j = h.next then { content := bytes, locked := false, live := true }
                     else h.blk j,
     next := h.next + 1 }, h.next)

/-- Release a block back to the allocator.  The bytes are NOT touched:
`free` only marks the block dead, exactly like `delete`/`free` in the
source language. -/
def Heap.free (h : Heap) (i : Nat) : Heap :=
  h.setBlock i { h.blk i with live := false }

/-- Modelled from the spec: `BinaryData::fill` is not under `src/`; per
spec §4.1 it is an in-place overwrite of every logical byte with the
given value. -/
def BinaryData.fillBlk (h : Heap) (i : Nat) (v : Nat) : Heap :=
  h.setBlock i { h.blk i with content := (h.blk i).content.map (fun _ => v) }

/-- Modelled from the spec: `BinaryData::resize` is not under `src/`; per
spec §9 `BinaryData` is a plain mutable byte container, so shrinking
truncates in place while growing past the current storage reallocates:
a fresh block receives the old bytes followed by zero padding, and the
old block is released as-is (no zeroization, no munlock).  Returns the
new heap and the (possibly moved) block address. -/
def BinaryData.resizeBlk (h : Heap) (i : Nat) (n : Nat) : Heap × Nat :=
  let c := (h.blk i).content
  if n ≤ c.length then
    (h.setBlock i { h.blk i with content := c.take n }, i)
  else
    let (h2, j) := h.alloc (c ++ List.replicate (n - c.length) 0)
    (h2.free i, j)

/-- Modelled from the spec: `BinaryData::reserve` is not under `src/`; a
plain container reserve for a capacity beyond the current storage moves
the bytes to a fresh block and releases the old one untouched. -/
def BinaryData.reserveBlk (h : Heap) (i : Nat) (n : Nat) : Heap × Nat :=
  let c := (h.blk i).content
  if n ≤ c.length then
    (h, i)
  else
    let (h2, j) := h.alloc c
    (h2.free i, j)

/-- Modelled from the spec: the destructor of plain `BinaryData` (not
under `src/`) releases the storage without any overwrite. -/
def BinaryData.destructor (h : Heap) (i : Nat) : Heap :=
  h.free i

/-- `SecureBinaryData::lockData` (EncryptionUtils.h:167-171):
`if(getSize() > 0) mlock(getPtr(), getSize());`.  The `mlock` return
value is discarded by the source, so the outcome `mlockOk` only sets the
lock flag; the operation emits no log output either way, which the model
records as an (always empty) list of log lines. -/
def SecureBinaryData.lockData (h : Heap) (i : Nat) (mlockOk : Bool) : Heap × List String :=
  if 0 < (h.blk i).content.length then
    (h.setBlock i { h.blk i with locked := mlockOk }, [])
  else
    (h, [])

/-- `SecureBinaryData::destroy` (EncryptionUtils.h:173-180):
`if(getSize() > 0) { fill(0x00); munlock(getPtr(), getSize()); }`. -/
def SecureBinaryData.destroy (h : Heap) (i : Nat) : Heap :=
  if 0 < (h.blk i).content.length then
    let h2 := BinaryData.fillBlk h i 0
    h2.setBlock i { h2.blk i with locked := false }
  else
    h

/-- `SecureBinaryData::~SecureBinaryData` (EncryptionUtils.h:145):
`destroy()` runs, then the base-class storage is released. -/
def SecureBinaryData.destructor (h : Heap) (i : Nat) : Heap :=
  (SecureBinaryData.destroy h i).free i

/-- `SecureBinaryData(SecureBinaryData const &)` (EncryptionUtils.h:148-149):
`BinaryData(sbd2.getPtr(), sbd2.getSize())` copies the bytes into fresh
storage, then `lockData()` runs on the copy. -/
def SecureBinaryData.copy (h : Heap) (i : Nat) (mlockOk : Bool) : Heap × Nat :=
  let (h2, j) := h.alloc (h.blk i).content
  ((SecureBinaryData.lockData h2 j mlockOk).1, j)

/-- `SecureBinaryData::resize` (EncryptionUtils.h:152):
`BinaryData::resize(sz); lockData();`. -/
def SecureBinaryData.resize (h : Heap) (i : Nat) (n : Nat) (mlockOk : Bool) : Heap × Nat :=
  let (h2, j) := BinaryData.resizeBlk h i n
  ((SecureBinaryData.lockData h2 j mlockOk).1, j)

/-- `SecureBinaryData::reserve` (EncryptionUtils.h:153):
`BinaryData::reserve(sz); lockData();`. -/
def SecureBinaryData.reserve (h : Heap) (i : Nat) (n : Nat) (mlockOk : Bool) : Heap × Nat :=
  let (h2, j) := BinaryData.reserveBlk h i n
  ((SecureBinaryData.lockData h2 j mlockOk).1, j)

/-- `SecureBinaryData::getRawCopy` (EncryptionUtils.h:156): returns
`BinaryData(getPtr(), getSize())`, a plain copy in fresh storage with no
`lockData` call and the plain destructor. -/
def SecureBinaryData.getRawCopy (h : Heap) (i : Nat) : Heap × Nat :=
  h.alloc (h.blk i).content

/-- A two-block heap used as concrete test input: block 0 holds the
nonzero secret bytes `[0xAA, 0x55]`, locked and live; block 1 is an empty
live buffer. -/
def testHeap : Heap :=
  { blk := fun j =>
      if j = 0 then { content := [170, 85], locked := true, live := true }
      else if j = 1 then { content := [], locked := false, live := true }
      else { content := [], locked := false, live := false },
    next := 2 }

/-- Frame lemma: `setBlock` at one address leaves every other address
unchanged. -/
theorem Heap.setBlock_blk_ne (h : Heap) (i j : Nat) (b : Block) (hne : j ≠ i) :
    (h.setBlock i b).blk j = h.blk j := by
  simp [Heap.setBlock, hne]

/-- Reading back the block just written by `setBlock`. -/
theorem Heap.setBlock_blk_eq (h : Heap) (i : Nat) (b : Block) :
    (h.setBlock i b).blk i = b := by
  simp [Heap.setBlock]

/-- Reading a fresh allocation: the new address holds the new block,
every other address is unchanged. -/
theorem Heap.alloc_blk (h : Heap) (bytes : List Nat) (j : Nat) :
    ((h.alloc bytes).1).blk j
      = if j = h.next then { content := bytes, locked := false, live := true }
        else h.blk j := rfl

/-- `free` marks the freed block dead but keeps its bytes. -/
theorem Heap.free_blk_eq (h : Heap) (i : Nat) :
    (h.free i).blk i = { h.blk i with live := false } := by
  simp [Heap.free, Heap.setBlock_blk_eq]

/-- `free` does not touch other blocks. -/
theorem Heap.free_blk_ne (h : Heap) (i j : Nat) (hne : j ≠ i) :
    (h.free i).blk j = h.blk j := by
  simp [Heap.free, Heap.setBlock_blk_ne _ _ _ _ hne]

/-- On a nonempty buffer, `lockData` sets the lock flag to the `mlock`
outcome and logs nothing. -/
theorem SecureBinaryData.lockData_of_pos (H : Heap) (j : Nat) (ok : Bool)
    (hp : 0 < (H.blk j).content.length) :
    SecureBinaryData.lockData H j ok
      = (H.setBlock j { H.blk j with locked := ok }, []) := by
  simp [SecureBinaryData.lockData, hp]

/-- C1: destroying a `SecureBinaryData` buffer of positive logical length
overwrites every byte of its backing storage with zero; the destructor,
which runs `destroy` before releasing the storage, therefore frees a
block whose bytes are already all zero at the moment of release. -/
theorem C1_destroy_zeroizes_storage (h : Heap) (i : Nat)
    (hl : 0 < (h.blk i).content.length) :
    (((SecureBinaryData.destroy h i).blk i).content.all (fun b => b == 0) = true)
    ∧ ((SecureBinaryData.destroy h i).blk i).live = (h.blk i).live
    ∧ (((SecureBinaryData.destructor h i).blk i).content.all (fun b => b == 0) = true)
    ∧ ((SecureBinaryData.destructor h i).blk i).live = false := by
  simp only [SecureBinaryData.destroy, SecureBinaryData.destructor, BinaryData.fillBlk,
    Heap.free, if_pos hl, Heap.setBlock_blk_eq]
  simp [Heap.setBlock, List.all_eq_true]

/-- C1 witness: the concrete two-byte secret buffer of `testHeap` is
fully zeroized by `destroy` and by the destructor. -/
theorem C1_destroy_zeroizes_storage_witness :
    (0 < (testHeap.blk 0).content.length)
    ∧ ((((SecureBinaryData.destroy testHeap 0).blk 0).content.all (fun b => b == 0) = true)
       ∧ ((SecureBinaryData.destroy testHeap 0).blk 0).live = (testHeap.blk 0).live
       ∧ (((SecureBinaryData.destructor testHeap 0).blk 0).content.all (fun b => b == 0) = true)
       ∧ ((SecureBinaryData.destructor testHeap 0).blk 0).live = false) :=
  ⟨by decide, C1_destroy_zeroizes_storage testHeap 0 (by decide)⟩

/-- C10: after `destroy()` the logical length is unchanged (the guard
only fills and unlocks, it never resizes) and every byte is zero; on a
zero-length buffer both `destroy()` and `lockData()` are no-ops. -/
theorem C10_destroy_keeps_length (h : Heap) (i : Nat) (ok : Bool) :
    (0 < (h.blk i).content.length →
       ((SecureBinaryData.destroy h i).blk i).content.length = (h.blk i).content.length
       ∧ (((SecureBinaryData.destroy h i).blk i).content.all (fun b => b == 0) = true))
    ∧ ((h.blk i).content.length = 0 →
       SecureBinaryData.destroy h i = h
       ∧ SecureBinaryData.lockData h i ok = (h, [])) := by
  constructor
  · intro hl
    simp only [SecureBinaryData.destroy, BinaryData.fillBlk, if_pos hl, Heap.setBlock_blk_eq]
    simp [List.all_eq_true]
  · intro hz
    have hng : ¬ 0 < (h.blk i).content.length := by omega
    constructor
    · simp [SecureBinaryData.destroy, hng]
    · simp [SecureBinaryData.lockData, hng]

/-- C10 witness: block 0 of `testHeap` (length 2) keeps its length and is
zero after `destroy`; block 1 (length 0) is untouched by `destroy` and
`lockData`. -/
theorem C10_destroy_keeps_length_witness :
    (0 < (testHeap.blk 0).content.length
     ∧ ((SecureBinaryData.destroy testHeap 0).blk 0).content.length
         = (testHeap.blk 0).content.length
     ∧ (((SecureBinaryData.destroy testHeap 0).blk 0).content.all (fun b => b == 0) = true))
    ∧ ((testHeap.blk 1).content.length = 0
       ∧ SecureBinaryData.destroy testHeap 1 = testHeap
       ∧ SecureBinaryData.lockData testHeap 1 true = (testHeap, [])) :=
  ⟨⟨by decide, (C10_destroy_keeps_length testHeap 0 true).1 (by decide)⟩,
   ⟨by decide, (C10_destroy_keeps_length testHeap 1 true).2 (by decide)⟩⟩

/-- C3 counterexample: on the concrete nonempty buffer of `testHeap`, a
failing `mlock` produces no log line at all, refuting the claim that the
failure is logged (once per process): the source discards the `mlock`
return value without any logging. -/
theorem C3_cex_mlock_failure_unlogged :
    ¬ (0 < ((SecureBinaryData.lockData testHeap 0 false).2).length) := by decide

/-- C3 amended: a page-lock failure never aborts the operation and never
changes the buffer's contents, logical length, or liveness — the `mlock`
return value is simply discarded — but nothing is ever logged, on failure
or success. -/
theorem C3_mlock_failure_silently_ignored (h : Heap) (i : Nat) (ok : Bool) :
    ((SecureBinaryData.lockData h i ok).1.blk i).content = (h.blk i).content
    ∧ ((SecureBinaryData.lockData h i ok).1.blk i).live = (h.blk i).live
    ∧ ((SecureBinaryData.lockData h i ok).1.next = h.next)
    ∧ (SecureBinaryData.lockData h i ok).2 = [] := by
  by_cases hl : 0 < (h.blk i).content.length
  · simp [SecureBinaryData.lockData, hl, Heap.setBlock_blk_eq, Heap.setBlock]
  · simp [SecureBinaryData.lockData, hl]

/-- C2 counterexample: growing the concrete two-byte buffer of `testHeap`
from length 2 to 4 moves the storage; the abandoned block 0 is released
still holding its secret bytes and still carrying its lock flag, refuting
the claim that abandoned storage is zeroized and unlocked before release. -/
theorem C2_cex_abandoned_storage_kept :
    ¬ (((((SecureBinaryData.resize testHeap 0 4 true).1.blk 0).content.all
          (fun b => b == 0)) = true)
       ∧ ((SecureBinaryData.resize testHeap 0 4 true).1.blk 0).locked = false) := by
  decide

/-- C2 amended: when `resize(n)` (or `reserve(n)`) moves the backing
storage, page-locking is re-established on the new storage (for `reserve`
this needs a nonempty buffer, since `lockData` ignores empty buffers),
but the abandoned old storage is released with its bytes intact and its
lock flag untouched: it is neither zeroized nor explicitly unlocked. -/
theorem C2_resize_relocks_but_abandons_storage (h : Heap) (i n : Nat)
    (hi : i < h.next) (hmove : (h.blk i).content.length < n)
    (hpos : 0 < (h.blk i).content.length) :
    ((SecureBinaryData.resize h i n true).2 ≠ i
     ∧ ((SecureBinaryData.resize h i n true).1.blk i).content = (h.blk i).content
     ∧ ((SecureBinaryData.resize h i n true).1.blk i).locked = (h.blk i).locked
     ∧ ((SecureBinaryData.resize h i n true).1.blk i).live = false
     ∧ ((SecureBinaryData.resize h i n true).1.blk
          (SecureBinaryData.resize h i n true).2).locked = true
     ∧ ((SecureBinaryData.resize h i n true).1.blk
          (SecureBinaryData.resize h i n true).2).content
         = (h.blk i).content ++ List.replicate (n - (h.blk i).content.length) 0)
    ∧ ((SecureBinaryData.reserve h i n true).2 ≠ i
       ∧ ((SecureBinaryData.reserve h i n true).1.blk i).content = (h.blk i).content
       ∧ ((SecureBinaryData.reserve h i n true).1.blk i).locked = (h.blk i).locked
       ∧ ((SecureBinaryData.reserve h i n true).1.blk i).live = false
       ∧ ((SecureBinaryData.reserve h i n true).1.blk
            (SecureBinaryData.reserve h i n true).2).locked = true
       ∧ ((SecureBinaryData.reserve h i n true).1.blk
            (SecureBinaryData.reserve h i n true).2).content = (h.blk i).content) := by
  have hne : h.next ≠ i := by omega
  have hine : i ≠ h.next := by omega
  have hnle : ¬ n ≤ (h.blk i).content.length := by omega
  constructor
  · set pad := (h.blk i).content ++ List.replicate (n - (h.blk i).content.length) 0 with hpad
    have e1 : BinaryData.resizeBlk h i n = (((h.alloc pad).1).free i, h.next) := by
      simp [BinaryData.resizeBlk, hnle, Heap.alloc]
    have hnew : (((h.alloc pad).1).free i).blk h.next
        = { content := pad, locked := false, live := true } := by
      rw [Heap.free_blk_ne _ _ _ hne, Heap.alloc_blk, if_pos rfl]
    have hold : (((h.alloc pad).1).free i).blk i = { h.blk i with live := false } := by
      rw [Heap.free_blk_eq, Heap.alloc_blk, if_neg hine]
    have hplen : 0 < ((((h.alloc pad).1).free i).blk h.next).content.length := by
      rw [hnew]; simp [hpad]; omega
    have e2 : SecureBinaryData.resize h i n true
        = ((((h.alloc pad).1).free i).setBlock h.next
             { ((((h.alloc pad).1).free i).blk h.next) with locked := true }, h.next) := by
      simp only [SecureBinaryData.resize, e1, SecureBinaryData.lockData_of_pos _ _ _ hplen]
    rw [e2]
    refine ⟨hne.symm ∘ Eq.symm, ?_, ?_, ?_, ?_, ?_⟩
    · rw [Heap.setBlock_blk_ne _ _ _ _ hine, hold]
    · rw [Heap.setBlock_blk_ne _ _ _ _ hine, hold]
    · rw [Heap.setBlock_blk_ne _ _ _ _ hine, hold]
    · rw [Heap.setBlock_blk_eq]
    · rw [Heap.setBlock_blk_eq, hnew]
  · have e1 : BinaryData.reserveBlk h i n = (((h.alloc ((h.blk i).content)).1).free i, h.next) := by
      simp [BinaryData.reserveBlk, hnle, Heap.alloc]
    have hnew : (((h.alloc ((h.blk i).content)).1).free i).blk h.next
        = { content := (h.blk i).content, locked := false, live := true } := by
      rw [Heap.free_blk_ne _ _ _ hne, Heap.alloc_blk, if_pos rfl]
    have hold : (((h.alloc ((h.blk i).content)).1).free i).blk i
        = { h.blk i with live := false } := by
      rw [Heap.free_blk_eq, Heap.alloc_blk, if_neg hine]
    have hplen : 0 < ((((h.alloc ((h.blk i).content)).1).free i).blk h.next).content.length := by
      rw [hnew]; exact hpos
    have e2 : SecureBinaryData.reserve h i n true
        = ((((h.alloc ((h.blk i).content)).1).free i).setBlock h.next
             { ((((h.alloc ((h.blk i).content)).1).free i).blk h.next) with locked := true },
           h.next) := by
      simp only [SecureBinaryData.reserve, e1, SecureBinaryData.lockData_of_pos _ _ _ hplen]
    rw [e2]
    refine ⟨hne.symm ∘ Eq.symm, ?_, ?_, ?_, ?_, ?_⟩
    · rw [Heap.setBlock_blk_ne _ _ _ _ hine, hold]
    · rw [Heap.setBlock_blk_ne _ _ _ _ hine, hold]
    · rw [Heap.setBlock_blk_ne _ _ _ _ hine, hold]
    · rw [Heap.setBlock_blk_eq]
    · rw [Heap.setBlock_blk_eq, hnew]

/-- C2 witness: the amended resize/reserve behaviour at the concrete
`testHeap` buffer, growing from length 2 to 4. -/
theorem C2_resize_relocks_but_abandons_storage_witness :
    (0 < testHeap.next ∧ (testHeap.blk 0).content.length < 4
     ∧ 0 < (testHeap.blk 0).content.length)
    ∧ ((SecureBinaryData.resize testHeap 0 4 true).1.blk 0).content
        = (testHeap.blk 0).content
    ∧ ((SecureBinaryData.resize testHeap 0 4 true).1.blk
         (SecureBinaryData.resize testHeap 0 4 true).2).locked = true :=
  ⟨by decide,
   (C2_resize_relocks_but_abandons_storage testHeap 0 4 (by decide) (by decide) (by decide)).1.2.1,
   (C2_resize_relocks_but_abandons_storage testHeap 0 4 (by decide) (by decide) (by decide)).1.2.2.2.2.1⟩

/-- C4: the copy constructor produces a buffer with byte-identical
contents in fresh storage, page-locked when nonempty, zeroized and
released by its own destructor, and independent of the original: the
copy leaves the original block untouched, filling the copy leaves the
original unchanged, and filling the original leaves the copy unchanged. -/
theorem C4_copy_independent (h : Heap) (i : Nat) (h2 : Heap) (j : Nat)
    (hi : i < h.next) (hc : SecureBinaryData.copy h i true = (h2, j)) :
    (h2.blk j).content = (h.blk i).content
    ∧ h2.blk i = h.blk i
    ∧ (0 < (h.blk i).content.length → (h2.blk j).locked = true)
    ∧ (∀ v, (BinaryData.fillBlk h2 j v).blk i = h2.blk i)
    ∧ (∀ v, (BinaryData.fillBlk h2 i v).blk j = h2.blk j)
    ∧ (((SecureBinaryData.destructor h2 j).blk j).content.all (fun b => b == 0) = true)
    ∧ ((SecureBinaryData.destructor h2 j).blk j).live = false := by
  have hine : i ≠ h.next := by omega
  have hj : j = h.next := by
    have := congrArg Prod.snd hc
    simpa [SecureBinaryData.copy] using this.symm
  subst hj
  have hcontnew : ((h.alloc ((h.blk i).content)).1).blk h.next
      = { content := (h.blk i).content, locked := false, live := true } := by
    rw [Heap.alloc_blk, if_pos rfl]
  have hh2 : h2 = (SecureBinaryData.lockData (h.alloc ((h.blk i).content)).1 h.next true).1 := by
    have := congrArg Prod.fst hc
    simpa [SecureBinaryData.copy] using this.symm
  have hji : h.next ≠ i := by omega
  by_cases hl : 0 < (h.blk i).content.length
  · have hplen : 0 < (((h.alloc ((h.blk i).content)).1).blk h.next).content.length := by
      rw [hcontnew]; exact hl
    have hh2e : h2 = ((h.alloc ((h.blk i).content)).1).setBlock h.next
        { ((h.alloc ((h.blk i).content)).1).blk h.next with locked := true } := by
      rw [hh2, SecureBinaryData.lockData_of_pos _ _ _ hplen]
    have hbj : h2.blk h.next = { content := (h.blk i).content, locked := true, live := true } := by
      rw [hh2e, Heap.setBlock_blk_eq, hcontnew]
    have hbi : h2.blk i = h.blk i := by
      rw [hh2e, Heap.setBlock_blk_ne _ _ _ _ hine, Heap.alloc_blk, if_neg hine]
    refine ⟨by rw [hbj], hbi, fun _ => by rw [hbj], ?_, ?_, ?_, ?_⟩
    · intro v
      rw [BinaryData.fillBlk, Heap.setBlock_blk_ne _ _ _ _ hine]
    · intro v
      rw [BinaryData.fillBlk, Heap.setBlock_blk_ne _ _ _ _ hji]
    · have hdl : 0 < (h2.blk h.next).content.length := by rw [hbj]; exact hl
      simp only [SecureBinaryData.destructor, SecureBinaryData.destroy, BinaryData.fillBlk,
        if_pos hdl, Heap.free_blk_eq, Heap.setBlock_blk_eq]
      simp [List.all_eq_true]
    · have hdl : 0 < (h2.blk h.next).content.length := by rw [hbj]; exact hl
      simp only [SecureBinaryData.destructor, SecureBinaryData.destroy, BinaryData.fillBlk,
        if_pos hdl, Heap.free_blk_eq, Heap.setBlock_blk_eq]
  · have hz : (h.blk i).content = [] := by
      cases hzc : (h.blk i).content with
      | nil => rfl
      | cons a t => rw [hzc] at hl; simp at hl
    have hplen : ¬ 0 < (((h.alloc ((h.blk i).content)).1).blk h.next).content.length := by
      rw [hcontnew, hz]; simp
    have hh2e : h2 = (h.alloc ((h.blk i).content)).1 := by
      rw [hh2, SecureBinaryData.lockData]
      simp [hplen]
    have hbj : h2.blk h.next = { content := (h.blk i).content, locked := false, live := true } := by
      rw [hh2e, hcontnew]
    have hbi : h2.blk i = h.blk i := by
      rw [hh2e, Heap.alloc_blk, if_neg hine]
    refine ⟨by rw [hbj], hbi, fun hcon => absurd hcon hl, ?_, ?_, ?_, ?_⟩
    · intro v
      rw [BinaryData.fillBlk, Heap.setBlock_blk_ne _ _ _ _ hine]
    · intro v
      rw [BinaryData.fillBlk, Heap.setBlock_blk_ne _ _ _ _ hji]
    · have hdl : ¬ 0 < (h2.blk h.next).content.length := by rw [hbj, hz]; simp
      simp only [SecureBinaryData.destructor, SecureBinaryData.destroy, if_neg hdl,
        Heap.free_blk_eq]
      rw [hbj, hz]
      rfl
    · have hdl : ¬ 0 < (h2.blk h.next).content.length := by rw [hbj, hz]; simp
      simp only [SecureBinaryData.destructor, SecureBinaryData.destroy, if_neg hdl,
        Heap.free_blk_eq]

/-- C4 witness: copying the concrete secret buffer of `testHeap` yields
an identical, locked, independent copy that zeroizes on destruction. -/
theorem C4_copy_independent_witness :
    (0 < testHeap.next)
    ∧ ((SecureBinaryData.copy testHeap 0 true).1.blk
         (SecureBinaryData.copy testHeap 0 true).2).content = (testHeap.blk 0).content
    ∧ (SecureBinaryData.copy testHeap 0 true).1.blk 0 = testHeap.blk 0 :=
  ⟨by decide,
   (C4_copy_independent testHeap 0 (SecureBinaryData.copy testHeap 0 true).1
      (SecureBinaryData.copy testHeap 0 true).2 (by decide) rfl).1,
   (C4_copy_independent testHeap 0 (SecureBinaryData.copy testHeap 0 true).1
      (SecureBinaryData.copy testHeap 0 true).2 (by decide) rfl).2.1⟩

/-- C9: `getRawCopy` hands the secret bytes to a plain `BinaryData` in
fresh storage that is never page-locked, and whose plain destructor
releases the storage with the secret bytes still in it: the contents
escape the `SecureBinaryData` zeroization/locking lifecycle. -/
theorem C9_getRawCopy_escapes_lifecycle (h : Heap) (i : Nat) (h2 : Heap) (j : Nat)
    (hi : i < h.next) (hl : 0 < (h.blk i).content.length)
    (hc : SecureBinaryData.getRawCopy h i = (h2, j)) :
    (h2.blk j).content = (h.blk i).content
    ∧ (h2.blk j).locked = false
    ∧ ((BinaryData.destructor h2 j).blk j).content = (h.blk i).content
    ∧ ((BinaryData.destructor h2 j).blk j).live = false := by
  have hj : j = h.next := by
    have := congrArg Prod.snd hc
    simpa [SecureBinaryData.getRawCopy, Heap.alloc] using this.symm
  subst hj
  have hh2 : h2 = (h.alloc ((h.blk i).content)).1 := by
    have := congrArg Prod.fst hc
    simpa [SecureBinaryData.getRawCopy] using this.symm
  have hbj : h2.blk h.next = { content := (h.blk i).content, locked := false, live := true } := by
    rw [hh2, Heap.alloc_blk, if_pos rfl]
  refine ⟨by rw [hbj], by rw [hbj], ?_, ?_⟩
  · rw [BinaryData.destructor, Heap.free_blk_eq, hbj]
  · rw [BinaryData.destructor, Heap.free_blk_eq]

/-- C9 witness: the raw copy of the concrete secret buffer of `testHeap`
still holds `[0xAA, 0x55]` after its storage is released. -/
theorem C9_getRawCopy_escapes_lifecycle_witness :
    (0 < testHeap.next ∧ 0 < (testHeap.blk 0).content.length)
    ∧ ((BinaryData.destructor (SecureBinaryData.getRawCopy testHeap 0).1
         (SecureBinaryData.getRawCopy testHeap 0).2).blk
         (SecureBinaryData.getRawCopy testHeap 0).2).content = (testHeap.blk 0).content :=
  ⟨by decide,
   (C9_getRawCopy_escapes_lifecycle testHeap 0 (SecureBinaryData.getRawCopy testHeap 0).1
      (SecureBinaryData.getRawCopy testHeap 0).2 (by decide) (by decide) rfl).2.2.1⟩

/-- Byte-wise XOR of two byte strings (truncates to the shorter). -/
def xorBytes (a b : List Nat) : List Nat :=
  List.zipWith (fun x y => x ^^^ y) a b

/-- A byte string read as a little-endian unsigned integer. -/
def leNat : List Nat → Nat
  | [] => 0
  | b :: t => b + 256 * leNat t

/-- Modelled from the spec: the ROMix fill phase of
`KdfRomix::DeriveKey_OneIter` (body not under `src/`).  For `n` steps the
current 64-byte state `X` is appended to the lookup table and then
replaced by `H X`; returns the table entries in order and the final
state. -/
def fillPhase (H : List Nat → List Nat) : Nat → List Nat → List (List Nat) × List Nat
  | 0, X => ([], X)
  | n + 1, X =>
      let r := fillPhase H n (H X)
      (X :: r.1, r.2)

/-- Modelled from the spec: the ROMix mix phase of
`KdfRomix::DeriveKey_OneIter` (body not under `src/`).  For `n` steps,
the first eight bytes of `X`, read little-endian, choose a table entry
modulo the table size; `X` becomes `H (X XOR entry)`. -/
def mixPhase (H : List Nat → List Nat) (tbl : List (List Nat)) : Nat → List Nat → List Nat
  | 0, X => X
  | n + 1, X =>
      let j := leNat (X.take 8) % tbl.length
      mixPhase H tbl n (H (xorBytes X (tbl.getD j [])))

/-- KDF parameters held by a `KdfRomix` instance
(EncryptionUtils.h:230-245): required memory, iteration count and salt.
`sequenceCount_ = memoryReqtBytes_ / hashOutputBytes_` with the 64-byte
hash output of SHA-512. -/
structure KdfRomix where
  memoryReqtBytes : Nat
  numIterations : Nat
  salt : List Nat

/-- `sequenceCount_`: the number of 64-byte lookup-table entries. -/
def KdfRomix.sequenceCount (k : KdfRomix) : Nat :=
  k.memoryReqtBytes / 64

/-- Modelled from the spec: `KdfRomix::DeriveKey_OneIter` (body not under
`src/`), parametric in the 64-byte-output hash `H` (SHA-512 in the
source): `X = H(password || salt)`; fill the lookup table with
`sequenceCount` successive hash states; mix for `sequenceCount` rounds;
output the first 32 bytes of the final state. -/
def KdfRomix.DeriveKey_OneIter (H : List Nat → List Nat) (k : KdfRomix)
    (password : List Nat) : List Nat :=
  let X := H (password ++ k.salt)
  let r := fillPhase H k.sequenceCount X
  (mixPhase H r.1 k.sequenceCount r.2).take 32

/-- Modelled from the spec: `KdfRomix::DeriveKey` (body not under
`src/`): a loop that replaces the running key by
`DeriveKey_OneIter(masterKey)` once per iteration, starting from the
password. -/
def KdfRomix.DeriveKey (H : List Nat → List Nat) (k : KdfRomix)
    (password : List Nat) : List Nat :=
  (List.range k.numIterations).foldl
    (fun masterKey _ => k.DeriveKey_OneIter H masterKey) password

/-- Folding a constant-step loop over `List.range n` is `n`-fold
iteration. -/
theorem foldl_range_iterate {α : Type} (g : α → α) (x : α) (n : Nat) :
    (List.range n).foldl (fun a _ => g a) x = g^[n] x := by
  induction n with
  | zero => rfl
  | succ m ih =>
      rw [List.range_succ, List.foldl_append, ih, List.foldl_cons, List.foldl_nil,
        Function.iterate_succ_apply']

/-- The mix phase keeps a 64-byte state 64 bytes long, for any
64-byte-output hash. -/
theorem mixPhase_length (H : List Nat → List Nat) (hH : ∀ l, (H l).length = 64)
    (tbl : List (List Nat)) (n : Nat) (X : List Nat) (hX : X.length = 64) :
    (mixPhase H tbl n X).length = 64 := by
  induction n generalizing X with
  | zero => exact hX
  | succ m ih => exact ih _ (hH _)

/-- The fill phase ends in a 64-byte state, for any 64-byte-output
hash. -/
theorem fillPhase_snd_length (H : List Nat → List Nat) (hH : ∀ l, (H l).length = 64)
    (n : Nat) (X : List Nat) (hX : X.length = 64) :
    ((fillPhase H n X).2).length = 64 := by
  induction n generalizing X with
  | zero => exact hX
  | succ m ih => exact ih _ (hH _)

/-- One KDF iteration emits exactly 32 bytes. -/
theorem DeriveKey_OneIter_length (H : List Nat → List Nat)
    (hH : ∀ l, (H l).length = 64) (k : KdfRomix) (password : List Nat) :
    (k.DeriveKey_OneIter H password).length = 32 := by
  rw [KdfRomix.DeriveKey_OneIter]
  rw [List.length_take]
  rw [mixPhase_length H hH _ _ _ (fillPhase_snd_length H hH _ _ (hH _))]
  rfl

/-- C5: `DeriveKey` equals iterating `DeriveKey_OneIter` `numIterations`
times, feeding each output as the next password; the final output is 32
bytes when at least one iteration runs; with `numIterations = 3` it is
exactly three chained `DeriveKey_OneIter` applications. -/
theorem C5_DeriveKey_chains_OneIter (H : List Nat → List Nat) (k : KdfRomix)
    (password : List Nat) (hiter : 1 ≤ k.numIterations)
    (hH : ∀ l, (H l).length = 64) :
    k.DeriveKey H password = (fun p => k.DeriveKey_OneIter H p)^[k.numIterations] password
    ∧ (k.DeriveKey H password).length = 32
    ∧ (k.numIterations = 3 →
        k.DeriveKey H password
          = k.DeriveKey_OneIter H (k.DeriveKey_OneIter H
              (k.DeriveKey_OneIter H password))) := by
  have hit : k.DeriveKey H password
      = (fun p => k.DeriveKey_OneIter H p)^[k.numIterations] password :=
    foldl_range_iterate _ password k.numIterations
  refine ⟨hit, ?_, ?_⟩
  · obtain ⟨m, hm⟩ : ∃ m, k.numIterations = m + 1 :=
      ⟨k.numIterations - 1, by omega⟩
    rw [hit, hm, Function.iterate_succ_apply']
    exact DeriveKey_OneIter_length H hH k _
  · intro h3
    rw [hit, h3]
    rfl

/-- A concrete 64-byte-output stand-in hash used to instantiate the KDF
theorems on explicit inputs. -/
def tinyHash (l : List Nat) : List Nat :=
  List.replicate 64 ((l.foldl (fun a b => a + b) 7) % 256)

/-- A concrete KdfRomix instance: 128 bytes of memory (2 table entries),
3 iterations, a 1-byte salt. -/
def testKdf : KdfRomix :=
  { memoryReqtBytes := 128, numIterations := 3, salt := [1] }

/-- C5 witness: on the concrete instance with three iterations, the
derived key is three chained one-iteration derivations and is 32 bytes
long. -/
theorem C5_DeriveKey_chains_OneIter_witness :
    1 ≤ testKdf.numIterations
    ∧ (testKdf.DeriveKey tinyHash [5, 6]).length = 32
    ∧ testKdf.DeriveKey tinyHash [5, 6]
        = testKdf.DeriveKey_OneIter tinyHash (testKdf.DeriveKey_OneIter tinyHash
            (testKdf.DeriveKey_OneIter tinyHash [5, 6])) :=
  ⟨by decide,
   (C5_DeriveKey_chains_OneIter tinyHash testKdf [5, 6] (by decide) (fun l => rfl)).2.1,
   (C5_DeriveKey_chains_OneIter tinyHash testKdf [5, 6] (by decide) (fun l => rfl)).2.2 rfl⟩

/-- XORing the same keystream twice recovers the original bytes, as long
as the keystream is at least as long. -/
theorem xorBytes_xorBytes_cancel (a b : List Nat) (h : a.length ≤ b.length) :
    xorBytes (xorBytes a b) b = a := by
  induction a generalizing b with
  | nil => rfl
  | cons x t ih =>
      cases b with
      | nil => simp at h
      | cons y s =>
          simp only [xorBytes, List.zipWith_cons_cons] at *
          rw [Nat.xor_cancel_right]
          rw [ih s (by simp only [List.length_cons] at h; omega)]

/-- `xorBytes` against a longer keystream keeps the data length. -/
theorem xorBytes_length (a b : List Nat) (h : a.length ≤ b.length) :
    (xorBytes a b).length = a.length := by
  simp only [xorBytes, List.length_zipWith]
  omega

/-- Modelled from the spec: the CFB-mode keystream loop of
`CryptoAES::Encrypt` (body not under `src/`), parametric in the keyed
AES block encryption `E`: each 16-byte plaintext block is XORed with
`E(feedback)`; the resulting ciphertext block becomes the next feedback
register; a final partial block is XORed with a truncated keystream. -/
def cfbEncrypt (E : List Nat → List Nat) (reg : List Nat) (m : List Nat) : List Nat :=
  match m with
  | [] => []
  | a :: t =>
      let c := xorBytes ((a :: t).take 16) (E reg)
      c ++ cfbEncrypt E c ((a :: t).drop 16)
termination_by m.length
decreasing_by simp [List.length_drop]; omega

/-- Modelled from the spec: the CFB-mode loop of `CryptoAES::Decrypt`
(body not under `src/`): each 16-byte ciphertext block is XORed with
`E(feedback)` to recover the plaintext, and the ciphertext block itself
becomes the next feedback register. -/
def cfbDecrypt (E : List Nat → List Nat) (reg : List Nat) (c : List Nat) : List Nat :=
  match c with
  | [] => []
  | a :: t =>
      let p := xorBytes ((a :: t).take 16) (E reg)
      p ++ cfbDecrypt E ((a :: t).take 16) ((a :: t).drop 16)
termination_by c.length
decreasing_by simp [List.length_drop]; omega

/-- Error kinds of the AES codec per spec §4.3. -/
inductive AesError where
  | badKeyLength
  | badIvLength
deriving DecidableEq

/-- Modelled from the spec: `CryptoAES::Encrypt` (body not under `src/`),
parametric in the keyed block cipher `E` (AES in the source): accepts a
16-, 24- or 32-byte key and an exactly 16-byte IV, then runs CFB mode
seeded with the IV.  No padding. -/
def CryptoAES.Encrypt (E : List Nat → List Nat → List Nat)
    (data key iv : List Nat) : Except AesError (List Nat) :=
  if key.length = 16 ∨ key.length = 24 ∨ key.length = 32 then
    if iv.length = 16 then
      Except.ok (cfbEncrypt (E key) iv data)
    else
      Except.error AesError.badIvLength
  else
    Except.error AesError.badKeyLength

/-- Modelled from the spec: `CryptoAES::Decrypt` (body not under `src/`),
the exact CFB inverse with the same key/IV checks. -/
def CryptoAES.Decrypt (E : List Nat → List Nat → List Nat)
    (data key iv : List Nat) : Except AesError (List Nat) :=
  if key.length = 16 ∨ key.length = 24 ∨ key.length = 32 then
    if iv.length = 16 then
      Except.ok (cfbDecrypt (E key) iv data)
    else
      Except.error AesError.badIvLength
  else
    Except.error AesError.badKeyLength

/-- `cfbEncrypt` on the empty message. -/
theorem cfbEncrypt_nil (E : List Nat → List Nat) (reg : List Nat) :
    cfbEncrypt E reg [] = [] := by
  rw [cfbEncrypt]

/-- `cfbDecrypt` on the empty ciphertext. -/
theorem cfbDecrypt_nil (E : List Nat → List Nat) (reg : List Nat) :
    cfbDecrypt E reg [] = [] := by
  rw [cfbDecrypt]

/-- Unfolding `cfbEncrypt` on a nonempty message. -/
theorem cfbEncrypt_ne_nil (E : List Nat → List Nat) (reg m : List Nat) (hne : m ≠ []) :
    cfbEncrypt E reg m
      = xorBytes (m.take 16) (E reg)
        ++ cfbEncrypt E (xorBytes (m.take 16) (E reg)) (m.drop 16) := by
  match m with
  | [] => exact absurd rfl hne
  | a :: t => rw [cfbEncrypt]

/-- Unfolding `cfbDecrypt` on a nonempty ciphertext. -/
theorem cfbDecrypt_ne_nil (E : List Nat → List Nat) (reg c : List Nat) (hne : c ≠ []) :
    cfbDecrypt E reg c
      = xorBytes (c.take 16) (E reg) ++ cfbDecrypt E (c.take 16) (c.drop 16) := by
  match c with
  | [] => exact absurd rfl hne
  | a :: t => rw [cfbDecrypt]

/-- CFB ciphertext has exactly the plaintext's length (stream mode, no
padding), for any 16-byte-output block cipher. -/
theorem cfbEncrypt_length (E : List Nat → List Nat) (hE : ∀ l, (E l).length = 16) :
    ∀ (n : Nat) (m reg : List Nat), m.length ≤ n →
      (cfbEncrypt E reg m).length = m.length := by
  intro n
  induction n with
  | zero =>
      intro m reg hm
      have hnil : m = [] := List.eq_nil_of_length_eq_zero (by omega)
      subst hnil
      rw [cfbEncrypt_nil]
  | succ k ih =>
      intro m reg hm
      by_cases hmne : m = []
      · subst hmne
        rw [cfbEncrypt_nil]
      · have htk : (m.take 16).length ≤ (E reg).length := by
          rw [hE, List.length_take]
          omega
        have hlc : (xorBytes (m.take 16) (E reg)).length = min 16 m.length := by
          rw [xorBytes_length _ _ htk, List.length_take]
        rw [cfbEncrypt_ne_nil E reg m hmne, List.length_append, hlc,
          ih (m.drop 16) _ (by rw [List.length_drop]; omega), List.length_drop]
        omega

/-- CFB decryption inverts CFB encryption block by block, for any
16-byte-output block cipher. -/
theorem cfbDecrypt_cfbEncrypt (E : List Nat → List Nat) (hE : ∀ l, (E l).length = 16) :
    ∀ (n : Nat) (m reg : List Nat), m.length ≤ n →
      cfbDecrypt E reg (cfbEncrypt E reg m) = m := by
  intro n
  induction n with
  | zero =>
      intro m reg hm
      have hnil : m = [] := List.eq_nil_of_length_eq_zero (by omega)
      subst hnil
      rw [cfbEncrypt_nil, cfbDecrypt_nil]
  | succ k ih =>
      intro n_m reg hm
      by_cases hmne : n_m = []
      · subst hmne
        rw [cfbEncrypt_nil, cfbDecrypt_nil]
      · have hmpos : 0 < n_m.length := List.length_pos.mpr hmne
        have htk : (n_m.take 16).length ≤ (E reg).length := by
          rw [hE, List.length_take]
          omega
        by_cases hlen : n_m.length ≤ 16
        · have hdrop : n_m.drop 16 = [] := List.drop_eq_nil_of_le hlen
          have htake : n_m.take 16 = n_m := List.take_of_length_le hlen
          rw [htake] at htk
          have henc : cfbEncrypt E reg n_m = xorBytes n_m (E reg) := by
            rw [cfbEncrypt_ne_nil E reg n_m hmne, hdrop, htake, cfbEncrypt_nil,
              List.append_nil]
          have hcb : (xorBytes n_m (E reg)).length = n_m.length :=
            xorBytes_length _ _ htk
          have hcbne : xorBytes n_m (E reg) ≠ [] := by
            intro hz
            rw [hz] at hcb
            simp at hcb
            omega
          rw [henc, cfbDecrypt_ne_nil E reg _ hcbne,
            List.take_of_length_le (by omega : (xorBytes n_m (E reg)).length ≤ 16),
            List.drop_eq_nil_of_le (by omega : (xorBytes n_m (E reg)).length ≤ 16),
            cfbDecrypt_nil, List.append_nil, xorBytes_xorBytes_cancel _ _ htk]
        · have htk16 : (n_m.take 16).length = 16 := by
            rw [List.length_take]
            omega
          have hc16 : (xorBytes (n_m.take 16) (E reg)).length = 16 := by
            rw [xorBytes_length _ _ htk, htk16]
          have hccne : xorBytes (n_m.take 16) (E reg)
              ++ cfbEncrypt E (xorBytes (n_m.take 16) (E reg)) (n_m.drop 16) ≠ [] := by
            intro hz
            have hzl := congrArg List.length hz
            rw [List.length_append, hc16] at hzl
            simp at hzl
          rw [cfbEncrypt_ne_nil E reg n_m hmne, cfbDecrypt_ne_nil E _ _ hccne,
            List.take_left' hc16, List.drop_left' hc16,
            ih (n_m.drop 16) _ (by rw [List.length_drop]; omega),
            xorBytes_xorBytes_cancel _ _ htk, List.take_append_drop]

/-- C6: with a valid key length (16, 24 or 32 bytes) and a 16-byte IV,
decryption is the exact inverse of encryption and the ciphertext has
exactly the plaintext's length (CFB stream mode, no padding), for any
16-byte-block cipher `E` standing in for keyed AES. -/
theorem C6_aes_cfb_roundtrip (E : List Nat → List Nat → List Nat)
    (m key iv : List Nat)
    (hkey : key.length = 16 ∨ key.length = 24 ∨ key.length = 32)
    (hiv : iv.length = 16)
    (hE : ∀ kb b, (E kb b).length = 16) :
    ∃ c, CryptoAES.Encrypt E m key iv = Except.ok c
      ∧ c.length = m.length
      ∧ CryptoAES.Decrypt E c key iv = Except.ok m := by
  refine ⟨cfbEncrypt (E key) iv m, ?_, ?_, ?_⟩
  · simp [CryptoAES.Encrypt, hkey, hiv]
  · exact cfbEncrypt_length (E key) (hE key) m.length m iv le_rfl
  · simp only [CryptoAES.Decrypt, if_pos hkey, if_pos hiv]
    rw [cfbDecrypt_cfbEncrypt (E key) (hE key) m.length m iv le_rfl]

/-- C6 witness: a concrete round trip with a 32-byte key, a 16-byte IV,
a 5-byte message and a constant-keystream stand-in block cipher. -/
theorem C6_aes_cfb_roundtrip_witness :
    ((List.replicate 32 9 : List Nat).length = 16
       ∨ (List.replicate 32 9 : List Nat).length = 24
       ∨ (List.replicate 32 9 : List Nat).length = 32)
    ∧ (List.replicate 16 255 : List Nat).length = 16
    ∧ ∃ c, CryptoAES.Encrypt (fun _ _ => List.replicate 16 3) [10, 20, 30, 40, 50]
             (List.replicate 32 9) (List.replicate 16 255) = Except.ok c
        ∧ c.length = [10, 20, 30, 40, 50].length
        ∧ CryptoAES.Decrypt (fun _ _ => List.replicate 16 3) c
            (List.replicate 32 9) (List.replicate 16 255) = Except.ok [10, 20, 30, 40, 50] :=
  ⟨by decide, by decide,
   C6_aes_cfb_roundtrip (fun _ _ => List.replicate 16 3) [10, 20, 30, 40, 50]
     (List.replicate 32 9) (List.replicate 16 255) (by decide) (by decide)
     (fun _ _ => rfl)⟩

/-- A byte string read as a big-endian unsigned integer. -/
def beNat (l : List Nat) : Nat :=
  l.foldl (fun a b => a * 256 + b) 0

/-- Fixed-width big-endian serialization of a natural number (most
significant byte first, left-padded with zero). -/
def toBytesBE : Nat → Nat → List Nat
  | 0, _ => []
  | w + 1, v => toBytesBE w (v / 256) ++ [v % 256]

/-- Appending one byte shifts the big-endian value by one base-256
digit. -/
theorem beNat_append (xs : List Nat) (b : Nat) :
    beNat (xs ++ [b]) = beNat xs * 256 + b := by
  simp [beNat, List.foldl_append]

/-- `toBytesBE` always emits exactly the requested width. -/
theorem toBytesBE_length (w v : Nat) : (toBytesBE w v).length = w := by
  induction w generalizing v with
  | zero => rfl
  | succ u ih => simp [toBytesBE, ih]

/-- Reading back a fixed-width big-endian serialization recovers the
value modulo `256 ^ width`. -/
theorem beNat_toBytesBE (w v : Nat) : beNat (toBytesBE w v) = v % 256 ^ w := by
  induction w generalizing v with
  | zero => simp [toBytesBE, beNat, Nat.mod_one]
  | succ u ih =>
      rw [toBytesBE, beNat_append, ih]
      have hp : (256 : Nat) ^ (u + 1) = 256 * 256 ^ u := by ring
      rw [hp, Nat.mod_mul]
      omega

/-- Modelled from the spec: the bodies of `CryptoECDSA` are not under
`src/`.  The cyclic subgroup generated by the base point G has order `N`
(the secp256k1 group order in the source), so a point of that subgroup
is represented by its discrete logarithm in `ZMod N`; `xcoord` abstracts
the map taking a point to the residue mod N of its affine x coordinate.
`ecdsaSignPair` is the textbook signing equation from spec §4.4 applied
to digest `e`, private scalar `k` and nonce: `r = xcoord(nonce·G)`,
`s = nonce⁻¹ (e + r·k) mod N`. -/
def ecdsaSignPair (N : ℕ) (xcoord : ZMod N → ZMod N) (e k nonce : ZMod N) :
    ZMod N × ZMod N :=
  (xcoord nonce, nonce⁻¹ * (e + xcoord nonce * k))

/-- Modelled from the spec: `CryptoECDSA::SignData` (body not under
`src/`): the r and s of the signing equation, serialized as the 64-byte
big-endian concatenation r || s per spec §3. -/
def CryptoECDSA.SignData (N : ℕ) (xcoord : ZMod N → ZMod N) (e k nonce : ZMod N) :
    List Nat :=
  toBytesBE 32 (ecdsaSignPair N xcoord e k nonce).1.val
    ++ toBytesBE 32 (ecdsaSignPair N xcoord e k nonce).2.val

/-- Modelled from the spec: `CryptoECDSA::ComputePublicKey` (body not
under `src/`): the public point `k·G` — discrete logarithm `k` in this
embedding — serialized by the abstract uncompressed-point codec
`encode`. -/
def CryptoECDSA.ComputePublicKey (N : ℕ) (encode : ZMod N → List Nat) (k : ZMod N) :
    List Nat :=
  encode k

/-- Modelled from the spec: the signature parser inside
`CryptoECDSA::VerifyData`: a signature blob must be exactly 64 bytes and
splits into big-endian r (first 32 bytes) and s (last 32 bytes). -/
def parseSigRS (sig : List Nat) : Option (Nat × Nat) :=
  if sig.length = 64 then
    some (beNat (sig.take 32), beNat (sig.drop 32))
  else
    none

/-- Modelled from the spec: the public-key parser inside
`CryptoECDSA::VerifyData`: the blob must be 65 bytes starting with 0x04;
the curve-membership and identity checks live in the abstract `decode`,
which yields the point's discrete logarithm or fails. -/
def parsePubKey (N : ℕ) (decode : List Nat → Option (ZMod N)) (pk : List Nat) :
    Option (ZMod N) :=
  if pk.length = 65 ∧ pk.head? = some 4 then decode pk else none

/-- Modelled from the spec: the core ECDSA check of
`CryptoECDSA::VerifyData`: r and s must lie in `[1, N-1]` and
`xcoord(e·s⁻¹·G + r·s⁻¹·P) = r` must hold — in discrete-logarithm form
the verification point is `e·s⁻¹ + r·s⁻¹·P`. -/
def verifyEcdsaRS (N : ℕ) (xcoord : ZMod N → ZMod N) (e : ZMod N)
    (rn sn : Nat) (P : ZMod N) : Bool :=
  if 1 ≤ rn ∧ rn ≤ N - 1 ∧ 1 ≤ sn ∧ sn ≤ N - 1 then
    decide (xcoord (e * ((sn : ZMod N))⁻¹ + ((rn : ZMod N)) * ((sn : ZMod N))⁻¹ * P)
      = ((rn : ZMod N)))
  else
    false

/-- Modelled from the spec: `CryptoECDSA::VerifyData` (body not under
`src/`): parse the signature and the public key; any parse failure
returns `false`; otherwise run the ECDSA check on SHA-256 digest `e`. -/
def CryptoECDSA.VerifyData (N : ℕ) (xcoord : ZMod N → ZMod N)
    (decode : List Nat → Option (ZMod N)) (e : ZMod N)
    (sig pk : List Nat) : Bool :=
  match parseSigRS sig, parsePubKey N decode pk with
  | some rs, some P => verifyEcdsaRS N xcoord e rs.1 rs.2 P
  | _, _ => false

/-- The core ECDSA check succeeds exactly when r and s are in range and
the verification equation holds. -/
theorem verifyEcdsaRS_eq_true_iff (N : ℕ) (xcoord : ZMod N → ZMod N) (e : ZMod N)
    (rn sn : Nat) (P : ZMod N) :
    verifyEcdsaRS N xcoord e rn sn P = true ↔
      ((1 ≤ rn ∧ rn ≤ N - 1 ∧ 1 ≤ sn ∧ sn ≤ N - 1)
       ∧ xcoord (e * ((sn : ZMod N))⁻¹ + ((rn : ZMod N)) * ((sn : ZMod N))⁻¹ * P)
           = ((rn : ZMod N))) := by
  unfold verifyEcdsaRS
  by_cases hcond : 1 ≤ rn ∧ rn ≤ N - 1 ∧ 1 ≤ sn ∧ sn ≤ N - 1
  · simp [hcond]
  · simp [hcond]

/-- C8: `VerifyData` returns true exactly when the signature blob is 64
bytes, the public-key blob is 65 bytes with leading 0x04 and decodes to
a curve point, r and s (big-endian halves of the blob) lie in `[1, N-1]`,
and the ECDSA verification equation holds on the digest; and whenever
the signature or public key fails to parse it returns `false` rather
than raising an error. -/
theorem C8_VerifyData_iff (N : ℕ) (xcoord : ZMod N → ZMod N)
    (decode : List Nat → Option (ZMod N)) (e : ZMod N) (sig pk : List Nat) :
    (CryptoECDSA.VerifyData N xcoord decode e sig pk = true ↔
      (sig.length = 64 ∧ pk.length = 65 ∧ pk.head? = some 4
       ∧ ∃ P, decode pk = some P
         ∧ (1 ≤ beNat (sig.take 32) ∧ beNat (sig.take 32) ≤ N - 1
            ∧ 1 ≤ beNat (sig.drop 32) ∧ beNat (sig.drop 32) ≤ N - 1)
         ∧ xcoord (e * ((beNat (sig.drop 32) : ZMod N))⁻¹
             + ((beNat (sig.take 32) : ZMod N)) * ((beNat (sig.drop 32) : ZMod N))⁻¹ * P)
           = ((beNat (sig.take 32) : ZMod N))))
    ∧ ((parseSigRS sig = none ∨ parsePubKey N decode pk = none) →
        CryptoECDSA.VerifyData N xcoord decode e sig pk = false) := by
  constructor
  · by_cases h64 : sig.length = 64
    · by_cases hpk : pk.length = 65 ∧ pk.head? = some 4
      · rcases hdec : decode pk with _ | P
        · simp [CryptoECDSA.VerifyData, parseSigRS, parsePubKey, h64, hpk, hdec]
        · simp [CryptoECDSA.VerifyData, parseSigRS, parsePubKey, h64, hpk, hdec,
            verifyEcdsaRS_eq_true_iff]
      · have hpp : parsePubKey N decode pk = none := by
          rw [parsePubKey, if_neg hpk]
        have hfalse : CryptoECDSA.VerifyData N xcoord decode e sig pk = false := by
          cases hps : parseSigRS sig <;> simp [CryptoECDSA.VerifyData, hps, hpp]
        rw [hfalse]
        constructor
        · intro hv
          exact absurd hv (by simp)
        · rintro ⟨_, h65, hhd, _⟩
          exact absurd ⟨h65, hhd⟩ hpk
    · have hfalse : CryptoECDSA.VerifyData N xcoord decode e sig pk = false := by
        have hps : parseSigRS sig = none := by
          rw [parseSigRS, if_neg h64]
        simp [CryptoECDSA.VerifyData, hps]
      rw [hfalse]
      constructor
      · intro hv
        exact absurd hv (by simp)
      · rintro ⟨h64c, _⟩
        exact absurd h64c h64
  · intro hn
    rcases hn with h | h
    · simp [CryptoECDSA.VerifyData, h]
    · cases hps : parseSigRS sig <;>
        simp [CryptoECDSA.VerifyData, hps, h]

/-- C8 witness: a 2-byte signature blob fails to parse and `VerifyData`
returns `false` on it (no exception in the model, which is total). -/
theorem C8_VerifyData_iff_witness :
    parseSigRS [1, 2] = none
    ∧ CryptoECDSA.VerifyData 13 id (fun _ => none) 0 [1, 2] [] = false :=
  ⟨rfl, (C8_VerifyData_iff 13 id (fun _ => none) 0 [1, 2] []).2 (Or.inl rfl)⟩

/-- C7: for every digest, every nonzero private scalar and every nonce
with the unit properties the signing retry loop guarantees (nonzero r
and invertible nonce and s), verifying a freshly produced signature with
the matching public key succeeds. -/
theorem C7_sign_verify_roundtrip (N : ℕ) (xcoord : ZMod N → ZMod N)
    (encode : ZMod N → List Nat) (decode : List Nat → Option (ZMod N))
    (e k nonce : ZMod N)
    (hN : 1 < N) (hNsz : N ≤ 256 ^ 32)
    (hk : k ≠ 0)
    (hr : xcoord nonce ≠ 0)
    (hnonce : nonce * nonce⁻¹ = 1)
    (hs : (ecdsaSignPair N xcoord e k nonce).2 * ((ecdsaSignPair N xcoord e k nonce).2)⁻¹ = 1)
    (henc : decode (CryptoECDSA.ComputePublicKey N encode k) = some k)
    (hlen : (CryptoECDSA.ComputePublicKey N encode k).length = 65)
    (hhd : (CryptoECDSA.ComputePublicKey N encode k).head? = some 4) :
    CryptoECDSA.VerifyData N xcoord decode e
      (CryptoECDSA.SignData N xcoord e k nonce)
      (CryptoECDSA.ComputePublicKey N encode k) = true := by
  haveI : NeZero N := ⟨by omega⟩
  haveI : Fact (1 < N) := ⟨hN⟩
  have hrerfl : (ecdsaSignPair N xcoord e k nonce).1 = xcoord nonce := rfl
  have hserfl : (ecdsaSignPair N xcoord e k nonce).2
      = nonce⁻¹ * (e + xcoord nonce * k) := rfl
  have hr0 : (ecdsaSignPair N xcoord e k nonce).1 ≠ 0 := by
    rw [hrerfl]
    exact hr
  have hs0 : (ecdsaSignPair N xcoord e k nonce).2 ≠ 0 := by
    intro h0
    rw [h0, zero_mul] at hs
    exact zero_ne_one hs
  have hlen64 : (CryptoECDSA.SignData N xcoord e k nonce).length = 64 := by
    rw [CryptoECDSA.SignData, List.length_append, toBytesBE_length, toBytesBE_length]
  have hrval : beNat ((CryptoECDSA.SignData N xcoord e k nonce).take 32)
      = (ecdsaSignPair N xcoord e k nonce).1.val := by
    rw [CryptoECDSA.SignData, List.take_left' (toBytesBE_length 32 _), beNat_toBytesBE]
    exact Nat.mod_eq_of_lt (lt_of_lt_of_le (ZMod.val_lt _) hNsz)
  have hsval : beNat ((CryptoECDSA.SignData N xcoord e k nonce).drop 32)
      = (ecdsaSignPair N xcoord e k nonce).2.val := by
    rw [CryptoECDSA.SignData, List.drop_left' (toBytesBE_length 32 _), beNat_toBytesBE]
    exact Nat.mod_eq_of_lt (lt_of_lt_of_le (ZMod.val_lt _) hNsz)
  have hps : parseSigRS (CryptoECDSA.SignData N xcoord e k nonce)
      = some ((ecdsaSignPair N xcoord e k nonce).1.val,
              (ecdsaSignPair N xcoord e k nonce).2.val) := by
    rw [parseSigRS, if_pos hlen64, hrval, hsval]
  have hpp : parsePubKey N decode (CryptoECDSA.ComputePublicKey N encode k) = some k := by
    rw [parsePubKey, if_pos ⟨hlen, hhd⟩, henc]
  unfold CryptoECDSA.VerifyData
  rw [hps, hpp]
  refine (verifyEcdsaRS_eq_true_iff N xcoord e _ _ k).mpr ⟨⟨?_, ?_, ?_, ?_⟩, ?_⟩
  · have hv : (ecdsaSignPair N xcoord e k nonce).1.val ≠ 0 :=
      fun hz => hr0 ((ZMod.val_eq_zero _).mp hz)
    omega
  · have := ZMod.val_lt (ecdsaSignPair N xcoord e k nonce).1
    omega
  · have hv : (ecdsaSignPair N xcoord e k nonce).2.val ≠ 0 :=
      fun hz => hs0 ((ZMod.val_eq_zero _).mp hz)
    omega
  · have := ZMod.val_lt (ecdsaSignPair N xcoord e k nonce).2
    omega
  · rw [ZMod.natCast_rightInverse (ecdsaSignPair N xcoord e k nonce).1,
      ZMod.natCast_rightInverse (ecdsaSignPair N xcoord e k nonce).2]
    have h1 : nonce * (ecdsaSignPair N xcoord e k nonce).2
        = e + (ecdsaSignPair N xcoord e k nonce).1 * k := by
      rw [hserfl, hrerfl, ← mul_assoc, hnonce, one_mul]
    have h2 : e * ((ecdsaSignPair N xcoord e k nonce).2)⁻¹
        + (ecdsaSignPair N xcoord e k nonce).1 * ((ecdsaSignPair N xcoord e k nonce).2)⁻¹ * k
        = nonce := by
      have h3 : e * ((ecdsaSignPair N xcoord e k nonce).2)⁻¹
          + (ecdsaSignPair N xcoord e k nonce).1
              * ((ecdsaSignPair N xcoord e k nonce).2)⁻¹ * k
          = (e + (ecdsaSignPair N xcoord e k nonce).1 * k)
              * ((ecdsaSignPair N xcoord e k nonce).2)⁻¹ := by
        ring
      rw [h3, ← h1, mul_assoc, hs, mul_one]
    rw [h2, hrerfl]

/-- C7 witness: a full sign-then-verify round trip over the 13-element
cyclic group with the identity x-coordinate abstraction, digest 1,
private key 5, nonce 2 and a concrete 65-byte point codec. -/
theorem C7_sign_verify_roundtrip_witness :
    CryptoECDSA.VerifyData 13 id (fun l => some ((l.getD 1 0 : ℕ) : ZMod 13)) 1
      (CryptoECDSA.SignData 13 id 1 5 2)
      (CryptoECDSA.ComputePublicKey 13
        (fun P => 4 :: P.val :: List.replicate 63 0) 5) = true := by
  have hu2 : IsUnit (2 : ZMod 13) := isUnit_of_mul_eq_one 2 7 (by decide)
  have hu11 : IsUnit ((1 : ZMod 13) + id (2 : ZMod 13) * 5) :=
    isUnit_of_mul_eq_one _ 6 (by decide)
  have huinv : IsUnit ((2 : ZMod 13)⁻¹) :=
    isUnit_of_mul_eq_one _ 2 (ZMod.inv_mul_of_unit 2 hu2)
  have hrfl : (ecdsaSignPair 13 id 1 5 2).2
      = (2 : ZMod 13)⁻¹ * ((1 : ZMod 13) + id (2 : ZMod 13) * 5) := rfl
  have hsu : IsUnit (ecdsaSignPair 13 id 1 5 2).2 := by
    rw [hrfl]
    exact huinv.mul hu11
  apply C7_sign_verify_roundtrip 13 id
    (fun P => 4 :: P.val :: List.replicate 63 0)
    (fun l => some ((l.getD 1 0 : ℕ) : ZMod 13)) 1 5 2
  · norm_num
  · norm_num
  · decide
  · decide
  · exact ZMod.mul_inv_of_unit 2 hu2
  · exact ZMod.mul_inv_of_unit _ hsu
  · decide
  · decide
  · decide
